import Mathlib

/-!
A shallow embedding of the A2SNN training code in src/adversarial.py: the
standard adversarial trainer train_adv and the meta adversarial trainer
meta_train_adv, together with machine-checked statements of the specification
claims about them. Line numbers in the doc comments refer to
src/adversarial.py.

The external collaborators of the trainers (the attack, the model forward
pass, the accuracy evaluator, the normalization function imported from utils)
are modelled as opaque parameters of the embedded functions, exactly at the
granularity at which the trainer code consumes them. Every numeric quantity
the code computes with floats is modelled over the exact rationals or, where
logarithms occur, over the reals.
-/

namespace A2SNN

/-- Python runtime value held by the configuration entry for epsilon: a float,
an int, a string, or the Python None value. Lines 29-35 dispatch on this
value with an isinstance test against float followed by an equality test
against the string rand. -/
inductive PyVal where
  | float (q : ℚ)
  | int (z : ℤ)
  | str (s : String)
  | pynone
deriving DecidableEq

/-- Epsilon argument of the external attack call: either an explicit value
(lines 30, 33) or the attack default when no epsilon keyword is passed
(line 35). -/
inductive EpsArg where
  | with_eps (q : ℚ)
  | default
deriving DecidableEq

/-- The fixed discrete set of perturbation strengths that lines 32, 98 and
130 sample from when the configured epsilon is the sentinel string rand. -/
def rand_eps_choices : List ℚ := [8/255, 16/255, 32/255, 64/255, 128/255]

/-- Lines 29-35 (and identically 95-101 and 127-133): choose the epsilon
argument for the attack call. The first branch fires exactly when the
configured value is a Python float; the sentinel string rand samples from
rand_eps_choices, the random draw of np.random.choice being modelled by the
index pick; every other value falls through to the attack default. -/
def select_epsilon (eps : PyVal) (pick : Fin rand_eps_choices.length) : EpsArg :=
  match eps with
  | PyVal.float q => EpsArg.with_eps q
  | PyVal.str s =>
    if s = "rand" then EpsArg.with_eps (rand_eps_choices.get pick) else EpsArg.default
  | _ => EpsArg.default

/-- Lines 16-19 (and 80-83): the dataset-conditional normalization function.
The argument nCifar stands for the external normalize_cifar10 imported from
utils; any dataset other than cifar10 gets no normalization function. -/
def select_norm_func {I : Type} (nCifar : I → I) (dataset : String) : Option (I → I) :=
  if dataset = "cifar10" then some nCifar else none

/-- Lines 38-40 (and 104-106, 136-138): apply the selected normalization to
both the clean and the perturbed inputs when one is configured, otherwise
pass both through unchanged. -/
def apply_norm {I : Type} (nf : Option (I → I)) (data perturbed_data : I) : I × I :=
  match nf with
  | some f => (f data, f perturbed_data)
  | none => (data, perturbed_data)

/-- The pair of inputs actually fed to the two forward passes at lines 41-42,
as a function of the dataset name and the raw clean and perturbed inputs. -/
def forward_inputs {I : Type} (nCifar : I → I) (dataset : String)
    (data perturbed_data : I) : I × I :=
  apply_norm (select_norm_func nCifar dataset) data perturbed_data

/-- Line 20 (and 84): the noise entropy threshold, computed once per run from
the configured var_threshold as log(var_threshold) + (1 + log(2 pi)) / 2. -/
noncomputable def noise_entropy_threshold (var_threshold : ℝ) : ℝ :=
  Real.log var_threshold + (1 + Real.log (2 * Real.pi)) / 2

/-- Lines 47, 113 and 145: torch.relu(threshold - entropy).mean(), the mean
over the components of the positive part of the gap between the threshold and
the entropy vector of the injected-noise distribution of the model. -/
noncomputable def noise_entropy_penalty (threshold : ℝ) (entropy : List ℝ) : ℝ :=
  ((entropy.map fun h => max (threshold - h) 0).sum) / entropy.length

/-- Line 50: the per-batch loss of the standard trainer, whose regularization
coefficient is the fixed configuration value reg_term. -/
noncomputable def train_batch_loss (adv_loss_w reg_term var_threshold : ℝ)
    (adv_loss clean_loss : ℝ) (entropy : List ℝ) : ℝ :=
  adv_loss_w * adv_loss + (1 - adv_loss_w) * clean_loss +
    reg_term * noise_entropy_penalty (noise_entropy_threshold var_threshold) entropy

/-- Line 116: the per-batch loss of the inner sub-step of the meta trainer,
whose regularization coefficient is the live value returned by the model
accessor get_reg_term at the moment of the step. -/
noncomputable def meta_inner_batch_loss (adv_loss_w var_threshold : ℝ)
    (get_reg_term_val : ℝ) (adv_loss clean_loss : ℝ) (entropy : List ℝ) : ℝ :=
  adv_loss_w * adv_loss + (1 - adv_loss_w) * clean_loss +
    get_reg_term_val * noise_entropy_penalty (noise_entropy_threshold var_threshold) entropy

/-- Line 148: the per-batch loss of the outer sub-step of the meta trainer,
again with the live get_reg_term value as coefficient. -/
noncomputable def meta_outer_batch_loss (adv_loss_w var_threshold : ℝ)
    (get_reg_term_val : ℝ) (adv_loss clean_loss : ℝ) (entropy : List ℝ) : ℝ :=
  adv_loss_w * adv_loss + (1 - adv_loss_w) * clean_loss +
    get_reg_term_val * noise_entropy_penalty (noise_entropy_threshold var_threshold) entropy

/-- The parameter partitions of the model from which the two optimizers of
meta_train_adv are built at lines 69-78: the generator partition, the three
heads of the noise module, the prototype partition and the learnable
regularization term. -/
inductive ParamName where
  | gen
  | noise_fc_mu
  | noise_fc_sigma
  | noise_fc_b
  | proto
  | reg_term
deriving DecidableEq

/-- Lines 69-74: the parameter groups handed to the inner Adam optimizer. -/
def inner_scope : List ParamName :=
  [ParamName.gen, ParamName.noise_fc_mu, ParamName.noise_fc_sigma, ParamName.proto]

/-- Lines 75-78: the parameter groups handed to the outer Adam optimizer. -/
def outer_scope : List ParamName := [ParamName.noise_fc_b, ParamName.reg_term]

/-- One optimizer step (lines 118 and 150): an optimizer step mutates exactly
the parameters of the groups the optimizer was constructed over, by some
update rule upd abstracting the Adam arithmetic, and leaves every parameter
outside its scope untouched. -/
def optimizer_step {V : Type} (scope : List ParamName) (upd : ParamName → V → V)
    (params : ParamName → V) : ParamName → V :=
  fun n => if n ∈ scope then upd n (params n) else params n

/-- Lines 119-123: draw the next validation batch. A draw from a non-empty
cursor succeeds directly; on exhaustion (StopIteration) the cursor is reset
to the start of the validation source and the draw is retried exactly once,
and a failure of that retry, possible only for an empty source, propagates as
none. -/
def next_val_batch {B : Type} (val_loader val_iter : List B) : Option (B × List B) :=
  match val_iter with
  | b :: it => some (b, it)
  | [] =>
    match val_loader with
    | b :: it => some (b, it)
    | [] => none

/-- The validation draws of one epoch of meta_train_adv: one draw per
training batch (the outer sub-step of lines 119-150 runs once for every
iteration of the loop at line 91), threading the cursor. The result none
models an uncaught StopIteration aborting the run; otherwise the result is
the list of drawn batches in order together with the final cursor. -/
def run_outer_draws {B : Type} (val_loader : List B) : ℕ → List B → Option (List B × List B)
  | 0, it => some ([], it)
  | n + 1, it =>
    match next_val_batch val_loader it with
    | none => none
    | some (b, it') =>
      match run_outer_draws val_loader n it' with
      | none => none
      | some (ds, itf) => some (b :: ds, itf)

/-- Run state of train_adv: the best-test-accuracy marker of line 21, the two
accuracy histories of lines 22-23, and an observation log recording for each
epoch whether the best checkpoint write of line 60 happened. -/
structure TrainState where
  best_test_acc : ℚ
  train_accuracy : List ℚ
  test_accuracy : List ℚ
  best_saves : List Bool
deriving DecidableEq

/-- Lines 21-23: the initial run state of train_adv. -/
def init_train_state : TrainState := ⟨-1, [], [], []⟩

/-- Lines 53-62: the end-of-epoch bookkeeping of train_adv. The accuracy
computations are external calls; they are modelled by epoch-indexed oracles
that receive the selected normalization function, exactly as the accuracy
calls of lines 53-54 receive norm. The in-epoch gradient steps mutate only
the model, whose evolution the oracles absorb. -/
def train_epoch {I : Type} (nf : Option (I → I)) (trainAcc testAcc : ℕ → Option (I → I) → ℚ)
    (s : TrainState) (epoch : ℕ) : TrainState :=
  ⟨if testAcc epoch nf > s.best_test_acc then testAcc epoch nf else s.best_test_acc,
   s.train_accuracy ++ [trainAcc epoch nf],
   s.test_accuracy ++ [testAcc epoch nf],
   s.best_saves ++ [decide (testAcc epoch nf > s.best_test_acc)]⟩

/-- Lines 13-65: the epoch loop of train_adv, running num_epochs epochs of
bookkeeping from the initial state, with the normalization function selected
once from the dataset name as at lines 16-19. -/
def train_adv {I : Type} (nCifar : I → I) (dataset : String)
    (trainAcc testAcc : ℕ → Option (I → I) → ℚ) (num_epochs : ℕ) : TrainState :=
  (List.range num_epochs).foldl
    (train_epoch (select_norm_func nCifar dataset) trainAcc testAcc) init_train_state

/-- Run state of meta_train_adv: the bookkeeping of train_adv plus the two
snapshot histories of lines 88 and 153-154, the validation cursor of line 89,
and an observation log of the validation batches the cursor handed to the
outer sub-steps (the data drawn at lines 120/123). -/
structure MetaState (B P : Type) where
  best_test_acc : ℚ
  train_accuracy : List ℚ
  test_accuracy : List ℚ
  b_hist : List P
  reg_term_hist : List P
  best_saves : List Bool
  val_iter : List B
  val_drawn : List B
deriving DecidableEq

/-- Lines 85-89: the initial run state of meta_train_adv; the cursor starts
as a fresh iterator over the whole validation source, before the epoch
loop. -/
def init_meta_state {B P : Type} (val_loader : List B) : MetaState B P :=
  ⟨-1, [], [], [], [], [], val_loader, []⟩

/-- Lines 91-162: one epoch of meta_train_adv. The batch loop draws one
validation batch per training batch through the cursor (aborting the run if a
draw fails), then the end-of-epoch bookkeeping of lines 151-162 runs: it
matches train_adv and additionally snapshots the bias-head vector and the
regularization term through the epoch-indexed oracles b_vec and reg_val
(modelling get_b_vector and get_reg_term on the current model). -/
def meta_epoch {B P I : Type} (val_loader train_loader : List B) (nf : Option (I → I))
    (trainAcc testAcc : ℕ → Option (I → I) → ℚ) (b_vec reg_val : ℕ → P)
    (s : MetaState B P) (epoch : ℕ) : Option (MetaState B P) :=
  match run_outer_draws val_loader train_loader.length s.val_iter with
  | none => none
  | some (ds, it') =>
    some ⟨if testAcc epoch nf > s.best_test_acc then testAcc epoch nf else s.best_test_acc,
          s.train_accuracy ++ [trainAcc epoch nf],
          s.test_accuracy ++ [testAcc epoch nf],
          s.b_hist ++ [b_vec epoch],
          s.reg_term_hist ++ [reg_val epoch],
          s.best_saves ++ [decide (testAcc epoch nf > s.best_test_acc)],
          it',
          s.val_drawn ++ ds⟩

/-- Lines 68-167: the epoch loop of meta_train_adv. The validation cursor is
initialized once before the epoch loop (line 89) and threaded across epochs;
the whole run aborts with none if any validation draw fails. -/
def meta_train_adv {B P I : Type} (nCifar : I → I) (dataset : String)
    (train_loader val_loader : List B) (trainAcc testAcc : ℕ → Option (I → I) → ℚ)
    (b_vec reg_val : ℕ → P) (num_epochs : ℕ) : Option (MetaState B P) :=
  (List.range num_epochs).foldl
    (fun acc epoch => acc.bind fun s =>
      meta_epoch val_loader train_loader (select_norm_func nCifar dataset) trainAcc testAcc
        b_vec reg_val s epoch)
    (some (init_meta_state val_loader))

/-- The value of the best-test-accuracy marker after the first E epochs:
starting from -1 (line 21 and line 85) and folding max over the per-epoch
test accuracies, mirroring the update of lines 58-59 and 158-159. -/
def best_marker (f : ℕ → ℚ) (E : ℕ) : ℚ := ((List.range E).map f).foldl max (-1)

/-- Spec-side definition following the specification words: the maximum of
all previous test accuracies. For 0 < e this is the maximum of
f 0, ..., f (e-1). -/
def spec_prev_max (f : ℕ → ℚ) (e : ℕ) : ℚ := ((List.range e).map f).foldl max (f 0)

/-! ### Helper lemmas about folded maxima -/

theorem le_foldl_max_init (l : List ℚ) : ∀ a : ℚ, a ≤ l.foldl max a := by
  induction l with
  | nil => intro a; exact le_refl a
  | cons x xs ih => intro a; exact le_trans (le_max_left a x) (ih (max a x))

theorem le_foldl_max_mem (l : List ℚ) : ∀ (a x : ℚ), x ∈ l → x ≤ l.foldl max a := by
  induction l with
  | nil => intro a x hx; cases hx
  | cons y ys ih =>
    intro a x hx
    rcases List.mem_cons.mp hx with h | h
    · subst h; exact le_trans (le_max_right a x) (le_foldl_max_init ys (max a x))
    · exact ih (max a y) x h

theorem foldl_max_le (l : List ℚ) :
    ∀ (a c : ℚ), a ≤ c → (∀ x ∈ l, x ≤ c) → l.foldl max a ≤ c := by
  induction l with
  | nil => intro a c hac _; exact hac
  | cons y ys ih =>
    intro a c hac h
    exact ih (max a y) c (max_le hac (h y (List.mem_cons_self y ys)))
      (fun x hx => h x (List.mem_cons_of_mem y hx))

theorem ite_gt_eq_max (a b : ℚ) : (if b > a then b else a) = max a b := by
  rcases le_or_lt b a with h | h
  · rw [if_neg (not_lt.mpr h), max_eq_left h]
  · rw [if_pos h, max_eq_right (le_of_lt h)]

theorem best_marker_succ (f : ℕ → ℚ) (E : ℕ) :
    best_marker f (E + 1) = max (best_marker f E) (f E) := by
  unfold best_marker
  rw [List.range_succ, List.map_append, List.foldl_append]
  rfl

theorem best_marker_mono (f : ℕ → ℚ) (E : ℕ) : best_marker f E ≤ best_marker f (E + 1) := by
  rw [best_marker_succ]; exact le_max_left _ _

theorem best_marker_eq_spec_prev_max (f : ℕ → ℚ) (e : ℕ) (he : 0 < e) (hf : ∀ i, 0 ≤ f i) :
    best_marker f e = spec_prev_max f e := by
  have hmem : f 0 ∈ (List.range e).map f := List.mem_map_of_mem f (List.mem_range.mpr he)
  unfold best_marker spec_prev_max
  apply le_antisymm
  · apply foldl_max_le
    · exact le_trans (by norm_num) (le_trans (hf 0) (le_foldl_max_init _ _))
    · intro x hx; exact le_foldl_max_mem _ _ x hx
  · apply foldl_max_le
    · exact le_foldl_max_mem _ _ _ hmem
    · intro x hx; exact le_foldl_max_mem _ _ x hx

/-! ### Closed forms of the two epoch loops -/

theorem train_adv_succ {I : Type} (nc : I → I) (ds : String)
    (tA tE : ℕ → Option (I → I) → ℚ) (E : ℕ) :
    train_adv nc ds tA tE (E + 1) =
      train_epoch (select_norm_func nc ds) tA tE (train_adv nc ds tA tE E) E := by
  unfold train_adv
  rw [List.range_succ, List.foldl_append]
  rfl

theorem train_adv_closed {I : Type} (nc : I → I) (ds : String)
    (tA tE : ℕ → Option (I → I) → ℚ) (E : ℕ) :
    train_adv nc ds tA tE E =
      ⟨best_marker (fun e => tE e (select_norm_func nc ds)) E,
       (List.range E).map (fun e => tA e (select_norm_func nc ds)),
       (List.range E).map (fun e => tE e (select_norm_func nc ds)),
       (List.range E).map (fun e =>
         decide (tE e (select_norm_func nc ds) >
           best_marker (fun i => tE i (select_norm_func nc ds)) e))⟩ := by
  induction E with
  | zero => rfl
  | succ E ih =>
    rw [train_adv_succ, ih]
    simp only [train_epoch, TrainState.mk.injEq]
    refine ⟨?_, ?_, ?_, ?_⟩
    · rw [best_marker_succ]
      exact ite_gt_eq_max _ _
    · rw [List.range_succ, List.map_append, List.map_cons, List.map_nil]
    · rw [List.range_succ, List.map_append, List.map_cons, List.map_nil]
    · rw [List.range_succ, List.map_append, List.map_cons, List.map_nil]

theorem meta_train_adv_succ {B P I : Type} (nc : I → I) (ds : String) (trL vaL : List B)
    (tA tE : ℕ → Option (I → I) → ℚ) (bV rV : ℕ → P) (E : ℕ) :
    meta_train_adv nc ds trL vaL tA tE bV rV (E + 1) =
      (meta_train_adv nc ds trL vaL tA tE bV rV E).bind (fun s =>
        meta_epoch vaL trL (select_norm_func nc ds) tA tE bV rV s E) := by
  unfold meta_train_adv
  rw [List.range_succ, List.foldl_append]
  rfl

theorem meta_train_adv_bookkeeping {B P I : Type} (nc : I → I) (ds : String)
    (trL vaL : List B) (tA tE : ℕ → Option (I → I) → ℚ) (bV rV : ℕ → P) :
    ∀ (E : ℕ) (s : MetaState B P), meta_train_adv nc ds trL vaL tA tE bV rV E = some s →
      s.best_test_acc = best_marker (fun e => tE e (select_norm_func nc ds)) E ∧
      s.train_accuracy = (List.range E).map (fun e => tA e (select_norm_func nc ds)) ∧
      s.test_accuracy = (List.range E).map (fun e => tE e (select_norm_func nc ds)) ∧
      s.b_hist = (List.range E).map bV ∧
      s.reg_term_hist = (List.range E).map rV ∧
      s.best_saves = (List.range E).map (fun e =>
        decide (tE e (select_norm_func nc ds) >
          best_marker (fun i => tE i (select_norm_func nc ds)) e)) := by
  intro E
  induction E with
  | zero =>
    intro s hs
    rw [show meta_train_adv nc ds trL vaL tA tE bV rV 0 = some (init_meta_state vaL) from rfl]
      at hs
    injection hs with h
    subst h
    exact ⟨rfl, rfl, rfl, rfl, rfl, rfl⟩
  | succ E ih =>
    intro s hs
    rw [meta_train_adv_succ] at hs
    rcases Option.bind_eq_some.mp hs with ⟨s₀, h₀, hep⟩
    obtain ⟨hb, htr, hte, hbh, hrh, hsv⟩ := ih s₀ h₀
    unfold meta_epoch at hep
    cases hdr : run_outer_draws vaL trL.length s₀.val_iter with
    | none => rw [hdr] at hep; simp at hep
    | some pair =>
      obtain ⟨ds', it'⟩ := pair
      rw [hdr] at hep
      injection hep with h
      subst h
      refine ⟨?_, ?_, ?_, ?_, ?_, ?_⟩
      · show (if _ > s₀.best_test_acc then _ else s₀.best_test_acc) = _
        rw [hb, best_marker_succ]
        exact ite_gt_eq_max _ _
      · show s₀.train_accuracy ++ _ = _
        rw [htr, List.range_succ, List.map_append, List.map_cons, List.map_nil]
      · show s₀.test_accuracy ++ _ = _
        rw [hte, List.range_succ, List.map_append, List.map_cons, List.map_nil]
      · show s₀.b_hist ++ _ = _
        rw [hbh, List.range_succ, List.map_append, List.map_cons, List.map_nil]
      · show s₀.reg_term_hist ++ _ = _
        rw [hrh, List.range_succ, List.map_append, List.map_cons, List.map_nil]
      · show s₀.best_saves ++ _ = _
        rw [hsv, hb, List.range_succ, List.map_append, List.map_cons, List.map_nil]

/-! ### Behaviour of the validation cursor -/

theorem run_outer_draws_cyclic {B : Type} (l : List B) (hl : l ≠ []) :
    ∀ (n p : ℕ), p ≤ l.length →
      ∃ ds p', run_outer_draws l n (l.drop p) = some (ds, l.drop p') ∧
        ds.length = n ∧ p' ≤ l.length ∧ p' % l.length = (p + n) % l.length ∧
        ∀ t, t < n → ds[t]? = l[(p + t) % l.length]? := by
  intro n
  induction n with
  | zero =>
    intro p hp
    exact ⟨[], p, rfl, rfl, hp, rfl, fun t ht => absurd ht (Nat.not_lt_zero t)⟩
  | succ m ih =>
    intro p hp
    rcases Nat.lt_or_ge p l.length with hlt | hge
    · have hdrop : l.drop p = l[p] :: l.drop (p + 1) := List.drop_eq_getElem_cons hlt
      obtain ⟨ds, p', heq, hlen, hp', hmod, hidx⟩ := ih (p + 1) hlt
      refine ⟨l[p] :: ds, p', ?_, ?_, hp', ?_, ?_⟩
      · rw [hdrop]
        simp only [run_outer_draws, next_val_batch]
        rw [heq]
      · simp [hlen]
      · rw [hmod]
        have h1 : p + 1 + m = p + (m + 1) := by omega
        rw [h1]
      · intro t ht
        cases t with
        | zero =>
          rw [List.getElem?_cons_zero, Nat.add_zero, Nat.mod_eq_of_lt hlt,
            List.getElem?_eq_getElem hlt]
        | succ k =>
          rw [List.getElem?_cons_succ]
          have h2 := hidx k (by omega)
          have h3 : p + 1 + k = p + (k + 1) := by omega
          rw [h3] at h2
          exact h2
    · have hpl : p = l.length := le_antisymm hp hge
      have hpos : 0 < l.length := List.length_pos.mpr hl
      obtain ⟨hd, tl, hcons⟩ := List.exists_cons_of_ne_nil hl
      have hdrop : l.drop p = [] := by rw [hpl, List.drop_length]
      have hnext : next_val_batch l [] = some (hd, l.drop 1) := by
        rw [hcons]
        rfl
      have hhead : l[0]? = some hd := by
        rw [hcons]
        exact List.getElem?_cons_zero
      obtain ⟨ds, p', heq, hlen, hp', hmod, hidx⟩ := ih 1 hpos
      refine ⟨hd :: ds, p', ?_, ?_, hp', ?_, ?_⟩
      · rw [hdrop]
        simp only [run_outer_draws, hnext]
        rw [heq]
      · simp [hlen]
      · rw [hmod, hpl, Nat.add_mod_left]
        have h1 : 1 + m = m + 1 := by omega
        rw [h1]
      · intro t ht
        cases t with
        | zero =>
          rw [List.getElem?_cons_zero, Nat.add_zero, hpl, Nat.mod_self, hhead]
        | succ k =>
          rw [List.getElem?_cons_succ]
          have h2 := hidx k (by omega)
          rw [h2, hpl, Nat.add_mod_left]
          have h3 : 1 + k = k + 1 := by omega
          rw [h3]

theorem meta_train_adv_cursor {B P I : Type} (nc : I → I) (ds : String) (trL vaL : List B)
    (tA tE : ℕ → Option (I → I) → ℚ) (bV rV : ℕ → P) (hl : vaL ≠ []) :
    ∀ E : ℕ, ∃ (s : MetaState B P) (p : ℕ),
      meta_train_adv nc ds trL vaL tA tE bV rV E = some s ∧
      p ≤ vaL.length ∧ p % vaL.length = (E * trL.length) % vaL.length ∧
      s.val_iter = vaL.drop p ∧
      s.val_drawn.length = E * trL.length ∧
      ∀ t, t < E * trL.length → s.val_drawn[t]? = vaL[t % vaL.length]? := by
  intro E
  induction E with
  | zero =>
    refine ⟨init_meta_state vaL, 0, rfl, Nat.zero_le _, ?_, (List.drop_zero vaL).symm, ?_, ?_⟩
    · rw [Nat.zero_mul]
    · rw [Nat.zero_mul]
      rfl
    · intro t ht
      rw [Nat.zero_mul] at ht
      exact absurd ht (Nat.not_lt_zero t)
  | succ E ih =>
    obtain ⟨s₀, p, hrun, hp, hmodp, hiter, hdlen, hdidx⟩ := ih
    obtain ⟨dnew, p', hdraws, hdslen, hp', hmod', hidx'⟩ :=
      run_outer_draws_cyclic vaL hl trL.length p hp
    have hsm : (E + 1) * trL.length = E * trL.length + trL.length := by
      rw [Nat.succ_mul]
    have hep : meta_epoch vaL trL (select_norm_func nc ds) tA tE bV rV s₀ E =
        some ⟨if tE E (select_norm_func nc ds) > s₀.best_test_acc
                then tE E (select_norm_func nc ds) else s₀.best_test_acc,
              s₀.train_accuracy ++ [tA E (select_norm_func nc ds)],
              s₀.test_accuracy ++ [tE E (select_norm_func nc ds)],
              s₀.b_hist ++ [bV E],
              s₀.reg_term_hist ++ [rV E],
              s₀.best_saves ++ [decide (tE E (select_norm_func nc ds) > s₀.best_test_acc)],
              vaL.drop p',
              s₀.val_drawn ++ dnew⟩ := by
      unfold meta_epoch
      rw [hiter, hdraws]
    refine ⟨⟨if tE E (select_norm_func nc ds) > s₀.best_test_acc
                then tE E (select_norm_func nc ds) else s₀.best_test_acc,
              s₀.train_accuracy ++ [tA E (select_norm_func nc ds)],
              s₀.test_accuracy ++ [tE E (select_norm_func nc ds)],
              s₀.b_hist ++ [bV E],
              s₀.reg_term_hist ++ [rV E],
              s₀.best_saves ++ [decide (tE E (select_norm_func nc ds) > s₀.best_test_acc)],
              vaL.drop p',
              s₀.val_drawn ++ dnew⟩, p', ?_, hp', ?_, rfl, ?_, ?_⟩
    · rw [meta_train_adv_succ, hrun]
      exact hep
    · rw [hmod', hsm, Nat.add_mod, hmodp, ← Nat.add_mod]
    · show (s₀.val_drawn ++ dnew).length = _
      rw [List.length_append, hdlen, hdslen, hsm]
    · intro t ht
      show (s₀.val_drawn ++ dnew)[t]? = _
      rcases Nat.lt_or_ge t (E * trL.length) with hlt | hge2
      · rw [List.getElem?_append]
        rw [if_pos (by rw [hdlen]; exact hlt)]
        exact hdidx t hlt
      · rw [List.getElem?_append_right (by rw [hdlen]; exact hge2), hdlen]
        have ht2 : t - E * trL.length < trL.length := by
          rw [hsm] at ht
          omega
        rw [hidx' (t - E * trL.length) ht2]
        have hd2 : E * trL.length + (t - E * trL.length) = t := by omega
        have hkey : (p + (t - E * trL.length)) % vaL.length = t % vaL.length := by
          rw [Nat.add_mod, hmodp, ← Nat.add_mod, hd2]
        rw [hkey]

theorem foldl_bind_none {α β : Type} (F : α → β → Option α) (l : List β) :
    l.foldl (fun acc e => acc.bind fun s => F s e) none = none := by
  induction l with
  | nil => rfl
  | cons x xs ih => exact ih

theorem meta_train_adv_empty_val {B P I : Type} (nc : I → I) (ds : String) (trL : List B)
    (tA tE : ℕ → Option (I → I) → ℚ) (bV rV : ℕ → P) (htr : trL ≠ []) :
    ∀ E : ℕ, 1 ≤ E →
      meta_train_adv nc ds trL ([] : List B) tA tE bV rV E = (none : Option (MetaState B P)) := by
  intro E
  induction E with
  | zero => intro h; exact absurd h (by omega)
  | succ E ih =>
    intro _
    rw [meta_train_adv_succ]
    rcases Nat.eq_zero_or_pos E with h0 | hpos
    · subst h0
      obtain ⟨b, trL', hcons⟩ := List.exists_cons_of_ne_nil htr
      rw [show meta_train_adv nc ds trL ([] : List B) tA tE bV rV 0 =
        some (init_meta_state []) from rfl, hcons]
      rfl
    · rw [ih hpos]
      rfl

theorem range_map_getElem {α : Type} (h : ℕ → α) (E e : ℕ) (he : e < E) :
    ((List.range E).map h)[e]? = some (h e) := by
  rw [List.getElem?_map, List.getElem?_range he]
  rfl

/-! ### The claims -/

/-- Claim C1: for every non-empty validation source the meta trainer run
completes with no exhaustion ever raised to the caller: every outer step
obtains a batch, and the cursor draws sequentially across the entire run with
wrap-around and no reset at epoch boundaries, so the t-th draw of the whole
run is element t modulo length of the validation source, regardless of how
the validation-source length compares to the number of training batches per
epoch. -/
theorem claim_C1 {B P I : Type} (nc : I → I) (ds : String) (trL vaL : List B)
    (tA tE : ℕ → Option (I → I) → ℚ) (bV rV : ℕ → P) (E : ℕ) (hval : vaL ≠ []) :
    ∃ s : MetaState B P, meta_train_adv nc ds trL vaL tA tE bV rV E = some s ∧
      s.val_drawn.length = E * trL.length ∧
      ∀ t, t < E * trL.length → s.val_drawn[t]? = vaL[t % vaL.length]? := by
  obtain ⟨s, p, hrun, _, _, _, hdlen, hdidx⟩ :=
    meta_train_adv_cursor nc ds trL vaL tA tE bV rV hval E
  exact ⟨s, hrun, hdlen, hdidx⟩

/-- Witness for claim C1: a two-epoch run over three training batches with a
two-batch validation source completes and draws six validation batches
cyclically. -/
theorem claim_C1_witness :
    ∃ s : MetaState ℕ ℕ, meta_train_adv (fun x : ℚ => x) "d" [0, 1, 2] [5, 6]
        (fun _ _ => 0) (fun _ _ => 0) (fun _ => 0) (fun _ => 0) 2 = some s ∧
      s.val_drawn.length = 2 * ([0, 1, 2] : List ℕ).length ∧
      ∀ t, t < 2 * ([0, 1, 2] : List ℕ).length →
        s.val_drawn[t]? = ([5, 6] : List ℕ)[t % ([5, 6] : List ℕ).length]? :=
  @claim_C1 ℕ ℕ ℚ (fun x => x) "d" [0, 1, 2] [5, 6] (fun _ _ => 0) (fun _ _ => 0)
    (fun _ => 0) (fun _ => 0) 2 (by decide)

/-- Claim C2: the inner optimizer scope (generator, noise mu-head, noise
sigma-head, prototype) and the outer optimizer scope (noise bias-head,
regularization-term) are disjoint; an inner optimizer step leaves every
parameter of the outer scope unchanged, and an outer optimizer step leaves
every parameter of the inner scope unchanged, for every update rule and every
parameter assignment. -/
theorem claim_C2 :
    (∀ n ∈ inner_scope, n ∉ outer_scope) ∧
    (∀ (V : Type) (upd : ParamName → V → V) (params : ParamName → V),
      ∀ n ∈ outer_scope, optimizer_step inner_scope upd params n = params n) ∧
    (∀ (V : Type) (upd : ParamName → V → V) (params : ParamName → V),
      ∀ n ∈ inner_scope, optimizer_step outer_scope upd params n = params n) := by
  refine ⟨by decide, ?_, ?_⟩
  · intro V upd params n hn
    have hdisj : ∀ m ∈ outer_scope, m ∉ inner_scope := by decide
    show (if n ∈ inner_scope then upd n (params n) else params n) = params n
    rw [if_neg (hdisj n hn)]
  · intro V upd params n hn
    have hdisj : ∀ m ∈ inner_scope, m ∉ outer_scope := by decide
    show (if n ∈ outer_scope then upd n (params n) else params n) = params n
    rw [if_neg (hdisj n hn)]

/-- Witness for claim C2: a concrete inner optimizer step leaves the
regularization-term parameter, which lies in the outer scope, unchanged. -/
theorem claim_C2_witness :
    optimizer_step inner_scope (fun _ v => v + 1) (fun _ => (0 : ℚ)) ParamName.reg_term = 0 :=
  claim_C2.2.1 ℚ (fun _ v => v + 1) (fun _ => (0 : ℚ)) ParamName.reg_term (by decide)

/-- Claim C3: the per-batch loss of both meta-trainer sub-steps is identical
to the standard trainer loss w * adv + (1 - w) * clean + coeff * penalty,
with the one difference that the coefficient slot holds the live
get_reg_term value instead of the fixed configuration value: substituting the
live value for the fixed coefficient makes the three formulas coincide. -/
theorem claim_C3 (adv_loss_w var_threshold reg_val adv_loss clean_loss : ℝ)
    (entropy : List ℝ) :
    meta_inner_batch_loss adv_loss_w var_threshold reg_val adv_loss clean_loss entropy =
      train_batch_loss adv_loss_w reg_val var_threshold adv_loss clean_loss entropy ∧
    meta_outer_batch_loss adv_loss_w var_threshold reg_val adv_loss clean_loss entropy =
      train_batch_loss adv_loss_w reg_val var_threshold adv_loss clean_loss entropy :=
  ⟨rfl, rfl⟩

/-- Counterexample for claim C4 as stated: the configured epsilon value 1 is
a fixed numeric value (a Python int), yet the dispatch of lines 29-35 calls
the attack with no epsilon argument rather than with epsilon 1, because the
isinstance test at line 29 checks for float exactly. -/
theorem claim_C4_counterexample :
    select_epsilon (PyVal.int 1) ⟨0, by decide⟩ = EpsArg.default ∧
    (EpsArg.default : EpsArg) ≠ EpsArg.with_eps 1 :=
  ⟨rfl, by decide⟩

/-- Claim C4, amended: if the configured epsilon is a Python float, the
attack is called with that value; if it is the sentinel string rand, the
attack is called with a value drawn from exactly the five-element list
8/255, 16/255, 32/255, 64/255, 128/255 (every element is attainable and
nothing else is); for every other value, including numeric ints, the attack
is called with no epsilon argument. -/
theorem claim_C4 (eps : PyVal) (pick : Fin rand_eps_choices.length) :
    (∀ q : ℚ, eps = PyVal.float q → select_epsilon eps pick = EpsArg.with_eps q) ∧
    (eps = PyVal.str "rand" →
      select_epsilon eps pick = EpsArg.with_eps (rand_eps_choices.get pick)) ∧
    (∀ q : ℚ, (∃ p : Fin rand_eps_choices.length,
        select_epsilon (PyVal.str "rand") p = EpsArg.with_eps q) ↔ q ∈ rand_eps_choices) ∧
    ((∀ q : ℚ, eps ≠ PyVal.float q) → eps ≠ PyVal.str "rand" →
      select_epsilon eps pick = EpsArg.default) ∧
    rand_eps_choices = [8/255, 16/255, 32/255, 64/255, 128/255] := by
  have hrand : ∀ p : Fin rand_eps_choices.length,
      select_epsilon (PyVal.str "rand") p = EpsArg.with_eps (rand_eps_choices.get p) := by
    intro p
    show (if ("rand" : String) = "rand"
      then EpsArg.with_eps (rand_eps_choices.get p) else EpsArg.default) = _
    rw [if_pos rfl]
  refine ⟨?_, ?_, ?_, ?_, rfl⟩
  · intro q hq
    subst hq
    rfl
  · intro hq
    subst hq
    exact hrand pick
  · intro q
    constructor
    · rintro ⟨p, hp⟩
      rw [hrand p] at hp
      injection hp with h3
      rw [← h3]
      exact List.get_mem rand_eps_choices p.1 p.2
    · intro hq2
      rcases List.mem_iff_get.mp hq2 with ⟨p, hp⟩
      exact ⟨p, by rw [hrand p, hp]⟩
  · intro hf hr
    cases eps with
    | float q => exact absurd rfl (hf q)
    | int z => rfl
    | str s =>
      show (if s = "rand" then _ else _) = _
      rw [if_neg]
      intro hs
      exact hr (by rw [hs])
    | pynone => rfl

/-- Witness for claim C4: a concrete float configuration value is passed to
the attack unchanged. -/
theorem claim_C4_witness :
    select_epsilon (PyVal.float (1/10)) ⟨0, by decide⟩ = EpsArg.with_eps (1/10) :=
  (claim_C4 (PyVal.float (1/10)) ⟨0, by decide⟩).1 (1/10) rfl

/-- Claim C5: for every positive var_threshold, the entropy penalty used in
every step of both trainers is the mean of relu(T - H) with
T = log(var_threshold) + (1 + log(2 pi)) / 2; it is zero whenever every
component of the entropy vector is at least T (equality included) and
strictly positive whenever some component is strictly below T. -/
theorem claim_C5 (vt : ℝ) (_hvt : 0 < vt) (H : List ℝ) (hne : H ≠ []) :
    ((∀ h ∈ H, noise_entropy_threshold vt ≤ h) →
      noise_entropy_penalty (noise_entropy_threshold vt) H = 0) ∧
    ((∃ h ∈ H, h < noise_entropy_threshold vt) →
      0 < noise_entropy_penalty (noise_entropy_threshold vt) H) ∧
    (∀ w r a c, train_batch_loss w r vt a c H =
      w * a + (1 - w) * c + r * noise_entropy_penalty (noise_entropy_threshold vt) H) ∧
    (∀ w r a c, meta_inner_batch_loss w vt r a c H =
      w * a + (1 - w) * c + r * noise_entropy_penalty (noise_entropy_threshold vt) H) ∧
    (∀ w r a c, meta_outer_batch_loss w vt r a c H =
      w * a + (1 - w) * c + r * noise_entropy_penalty (noise_entropy_threshold vt) H) := by
  refine ⟨?_, ?_, fun w r a c => rfl, fun w r a c => rfl, fun w r a c => rfl⟩
  · intro hall
    unfold noise_entropy_penalty
    have hz : ∀ x ∈ H.map (fun h => max (noise_entropy_threshold vt - h) 0), x = 0 := by
      intro x hx
      rcases List.mem_map.mp hx with ⟨h, hmem, hxe⟩
      rw [← hxe]
      exact max_eq_right (sub_nonpos.mpr (hall h hmem))
    rw [List.sum_eq_zero hz, zero_div]
  · rintro ⟨h, hmem, hlt⟩
    unfold noise_entropy_penalty
    apply div_pos
    · have hpos : 0 < noise_entropy_threshold vt - h := sub_pos.mpr hlt
      have hmemmap : max (noise_entropy_threshold vt - h) 0 ∈
          H.map (fun x => max (noise_entropy_threshold vt - x) 0) :=
        List.mem_map_of_mem _ hmem
      have hnn : ∀ x ∈ H.map (fun x => max (noise_entropy_threshold vt - x) 0), (0 : ℝ) ≤ x := by
        intro x hx
        rcases List.mem_map.mp hx with ⟨y, _, hxe⟩
        rw [← hxe]
        exact le_max_right _ _
      exact lt_of_lt_of_le (lt_of_lt_of_le hpos (le_max_left _ _))
        (List.single_le_sum hnn _ hmemmap)
    · exact_mod_cast List.length_pos.mpr hne

/-- Witness for claim C5: with var_threshold one and the entropy vector
sitting exactly at the threshold, the penalty evaluates to zero. -/
theorem claim_C5_witness :
    noise_entropy_penalty (noise_entropy_threshold 1) [noise_entropy_threshold 1] = 0 :=
  (claim_C5 1 zero_lt_one [noise_entropy_threshold 1] (List.cons_ne_nil _ _)).1 (by
    intro x hx
    rw [List.mem_singleton] at hx
    exact le_of_eq hx.symm)

/-- Claim C6: in both trainers the best checkpoint is written at the end of
an epoch exactly when that epoch's test accuracy strictly exceeds the
maximum of all previous epochs' test accuracies (at the first epoch, which
has no previous epochs, it is always written), and the best-test-accuracy
marker is non-decreasing over the run. Accuracies are assumed nonnegative,
as the external accuracy evaluator returns values in the unit interval. -/
theorem claim_C6 {B P I : Type} (nc : I → I) (ds : String) (trL vaL : List B)
    (tA tE : ℕ → Option (I → I) → ℚ) (bV rV : ℕ → P) (E : ℕ)
    (hacc : ∀ e, 0 ≤ tE e (select_norm_func nc ds)) :
    (∀ e, 0 < e → e < E →
      ((train_adv nc ds tA tE E).best_saves[e]? = some true ↔
        spec_prev_max (fun i => tE i (select_norm_func nc ds)) e <
          tE e (select_norm_func nc ds))) ∧
    (0 < E → (train_adv nc ds tA tE E).best_saves[0]? = some true) ∧
    (∀ e, (train_adv nc ds tA tE e).best_test_acc ≤
      (train_adv nc ds tA tE (e + 1)).best_test_acc) ∧
    (∀ e (s : MetaState B P), 0 < e → e < E →
      meta_train_adv nc ds trL vaL tA tE bV rV E = some s →
      (s.best_saves[e]? = some true ↔
        spec_prev_max (fun i => tE i (select_norm_func nc ds)) e <
          tE e (select_norm_func nc ds))) ∧
    (0 < E → ∀ s : MetaState B P, meta_train_adv nc ds trL vaL tA tE bV rV E = some s →
      s.best_saves[0]? = some true) ∧
    (∀ (E' : ℕ) (s₁ s₂ : MetaState B P),
      meta_train_adv nc ds trL vaL tA tE bV rV E' = some s₁ →
      meta_train_adv nc ds trL vaL tA tE bV rV (E' + 1) = some s₂ →
      s₁.best_test_acc ≤ s₂.best_test_acc) := by
  have hbm0 : best_marker (fun i => tE i (select_norm_func nc ds)) 0 = -1 := rfl
  have hgt0 : tE 0 (select_norm_func nc ds) >
      best_marker (fun i => tE i (select_norm_func nc ds)) 0 := by
    rw [hbm0]
    exact lt_of_lt_of_le (by norm_num) (hacc 0)
  have hiff : ∀ e, 0 < e →
      ((decide (tE e (select_norm_func nc ds) >
          best_marker (fun i => tE i (select_norm_func nc ds)) e) = true) ↔
        spec_prev_max (fun i => tE i (select_norm_func nc ds)) e <
          tE e (select_norm_func nc ds)) := by
    intro e he
    rw [decide_eq_true_iff, best_marker_eq_spec_prev_max _ e he hacc]
  refine ⟨?_, ?_, ?_, ?_, ?_, ?_⟩
  · intro e he0 heE
    rw [train_adv_closed]
    show ((List.range E).map _)[e]? = some true ↔ _
    rw [range_map_getElem _ E e heE]
    simp only [Option.some.injEq]
    exact hiff e he0
  · intro hE0
    rw [train_adv_closed]
    show ((List.range E).map _)[0]? = some true
    rw [range_map_getElem _ E 0 hE0]
    exact congrArg some (decide_eq_true hgt0)
  · intro e
    rw [train_adv_closed, train_adv_closed]
    show best_marker _ e ≤ best_marker _ (e + 1)
    exact best_marker_mono _ e
  · intro e s he0 heE hs
    obtain ⟨_, _, _, _, _, hsv⟩ := meta_train_adv_bookkeeping nc ds trL vaL tA tE bV rV E s hs
    rw [hsv, range_map_getElem _ E e heE]
    simp only [Option.some.injEq]
    exact hiff e he0
  · intro hE0 s hs
    obtain ⟨_, _, _, _, _, hsv⟩ := meta_train_adv_bookkeeping nc ds trL vaL tA tE bV rV E s hs
    rw [hsv, range_map_getElem _ E 0 hE0]
    exact congrArg some (decide_eq_true hgt0)
  · intro E' s₁ s₂ h₁ h₂
    obtain ⟨hb₁, _⟩ := meta_train_adv_bookkeeping nc ds trL vaL tA tE bV rV E' s₁ h₁
    obtain ⟨hb₂, _⟩ := meta_train_adv_bookkeeping nc ds trL vaL tA tE bV rV (E' + 1) s₂ h₂
    rw [hb₁, hb₂]
    exact best_marker_mono _ E'

/-- Witness for claim C6: at a concrete two-epoch run the second-epoch best
write happens exactly when the second accuracy exceeds the first. -/
theorem claim_C6_witness :
    (train_adv (fun x : ℚ => x) "d" (fun _ _ => 1) (fun _ _ => 1) 2).best_saves[1]? = some true ↔
      spec_prev_max (fun _ => (1 : ℚ)) 1 < 1 :=
  (@claim_C6 ℕ ℕ ℚ (fun x => x) "d" [0] [0] (fun _ _ => 1) (fun _ _ => 1) (fun _ => 0)
    (fun _ => 0) 2 (fun e => zero_le_one)).1 1 (by decide) (by decide)

/-- Claim C7: after a completed run of num_epochs epochs the two accuracy
histories of the standard trainer have length exactly num_epochs, and for
the meta trainer all four histories, the bias-head snapshots and the
regularization-term snapshots included, have length exactly num_epochs. -/
theorem claim_C7 {B P I : Type} (nc : I → I) (ds : String) (trL vaL : List B)
    (tA tE : ℕ → Option (I → I) → ℚ) (bV rV : ℕ → P) (E : ℕ) :
    ((train_adv nc ds tA tE E).train_accuracy.length = E ∧
     (train_adv nc ds tA tE E).test_accuracy.length = E) ∧
    (∀ s : MetaState B P, meta_train_adv nc ds trL vaL tA tE bV rV E = some s →
      s.train_accuracy.length = E ∧ s.test_accuracy.length = E ∧
      s.b_hist.length = E ∧ s.reg_term_hist.length = E) := by
  constructor
  · rw [train_adv_closed]
    exact ⟨by simp, by simp⟩
  · intro s hs
    obtain ⟨_, htr2, hte2, hbh, hrh, _⟩ :=
      meta_train_adv_bookkeeping nc ds trL vaL tA tE bV rV E s hs
    refine ⟨?_, ?_, ?_, ?_⟩
    · rw [htr2, List.length_map, List.length_range]
    · rw [hte2, List.length_map, List.length_range]
    · rw [hbh, List.length_map, List.length_range]
    · rw [hrh, List.length_map, List.length_range]

/-- Witness for claim C7: a concrete completed one-epoch meta run has
one-element histories. -/
theorem claim_C7_witness :
    (MetaState.mk 1 [1] [1] [0] [0] [true] [] [0] : MetaState ℕ ℕ).train_accuracy.length = 1 ∧
    (MetaState.mk 1 [1] [1] [0] [0] [true] [] [0] : MetaState ℕ ℕ).test_accuracy.length = 1 ∧
    (MetaState.mk 1 [1] [1] [0] [0] [true] [] [0] : MetaState ℕ ℕ).b_hist.length = 1 ∧
    (MetaState.mk 1 [1] [1] [0] [0] [true] [] [0] : MetaState ℕ ℕ).reg_term_hist.length = 1 :=
  (@claim_C7 ℕ ℕ ℚ (fun x => x) "x" [0] [0] (fun _ _ => 1) (fun _ _ => 1) (fun _ => 0)
    (fun _ => 0) 1).2 (MetaState.mk 1 [1] [1] [0] [0] [true] [] [0]) (by decide)

/-- Claim C8: normalization is applied to both forward inputs exactly when
the configured dataset is cifar10: for cifar10 the selected function is the
registered normalization and both the clean and the perturbed inputs pass
through it; for every other dataset no function is selected and both inputs
pass through unchanged; and the very same selection is the norm argument
handed to the accuracy evaluator of both trainers. -/
theorem claim_C8 {B P I : Type} (nc : I → I) (ds : String) (trL vaL : List B)
    (tA tE : ℕ → Option (I → I) → ℚ) (bV rV : ℕ → P) (E : ℕ) :
    select_norm_func nc "cifar10" = some nc ∧
    (ds ≠ "cifar10" → select_norm_func nc ds = none) ∧
    (∀ d p : I, forward_inputs nc "cifar10" d p = (nc d, nc p)) ∧
    (ds ≠ "cifar10" → ∀ d p : I, forward_inputs nc ds d p = (d, p)) ∧
    ((train_adv nc ds tA tE E).train_accuracy =
      (List.range E).map (fun e => tA e (select_norm_func nc ds)) ∧
     (train_adv nc ds tA tE E).test_accuracy =
      (List.range E).map (fun e => tE e (select_norm_func nc ds))) ∧
    (∀ s : MetaState B P, meta_train_adv nc ds trL vaL tA tE bV rV E = some s →
      s.train_accuracy = (List.range E).map (fun e => tA e (select_norm_func nc ds)) ∧
      s.test_accuracy = (List.range E).map (fun e => tE e (select_norm_func nc ds))) := by
  have hsel : select_norm_func nc "cifar10" = some nc := by
    unfold select_norm_func
    rw [if_pos rfl]
  refine ⟨hsel, ?_, ?_, ?_, ?_, ?_⟩
  · intro hne
    unfold select_norm_func
    rw [if_neg hne]
  · intro d p
    show apply_norm (select_norm_func nc "cifar10") d p = (nc d, nc p)
    rw [hsel]
    rfl
  · intro hne d p
    show apply_norm (select_norm_func nc ds) d p = (d, p)
    rw [show select_norm_func nc ds = none from by unfold select_norm_func; rw [if_neg hne]]
    rfl
  · rw [train_adv_closed]
    exact ⟨rfl, rfl⟩
  · intro s hs
    obtain ⟨_, htr2, hte2, _⟩ := meta_train_adv_bookkeeping nc ds trL vaL tA tE bV rV E s hs
    exact ⟨htr2, hte2⟩

/-- Witness for claim C8: a dataset other than cifar10 selects no
normalization function. -/
theorem claim_C8_witness :
    select_norm_func (fun x : ℚ => x) "mnist" = none :=
  (@claim_C8 ℕ ℕ ℚ (fun x => x) "mnist" [0] [0] (fun _ _ => 0) (fun _ _ => 0) (fun _ => 0)
    (fun _ => 0) 1).2.1 (by decide)

/-- Claim C9: with an empty validation source the exhaustion handler does
not recover: the reset-and-retry draws once from the freshly reset cursor
and fails again (next_val_batch on the empty source with the empty cursor is
none), and for a non-empty training source and at least one epoch the whole
run aborts with none on the first outer step; the no-exhaustion guarantee
holds only for non-empty validation sources. -/
theorem claim_C9 {B P I : Type} (nc : I → I) (ds : String) (trL : List B)
    (tA tE : ℕ → Option (I → I) → ℚ) (bV rV : ℕ → P) (E : ℕ)
    (htr : trL ≠ []) (hE : 1 ≤ E) :
    next_val_batch ([] : List B) [] = none ∧
    meta_train_adv nc ds trL ([] : List B) tA tE bV rV E = (none : Option (MetaState B P)) :=
  ⟨rfl, meta_train_adv_empty_val nc ds trL tA tE bV rV htr E hE⟩

/-- Witness for claim C9: a concrete one-epoch run over one training batch
with an empty validation source aborts. -/
theorem claim_C9_witness :
    next_val_batch ([] : List ℕ) [] = none ∧
    meta_train_adv (fun x : ℚ => x) "d" [0] ([] : List ℕ) (fun _ _ => 0) (fun _ _ => 0)
      (fun _ => (0 : ℕ)) (fun _ => (0 : ℕ)) 1 = none :=
  @claim_C9 ℕ ℕ ℚ (fun x => x) "d" [0] (fun _ _ => 0) (fun _ _ => 0) (fun _ => 0)
    (fun _ => 0) 1 (by decide) (by decide)

/-- Claim C10: whenever the accuracy evaluator returns values in the unit
interval and at least one epoch runs, the best checkpoint is written at the
end of the first epoch of both trainers, because the best-test-accuracy
marker is initialized to -1 and any unit-interval accuracy strictly exceeds
it. -/
theorem claim_C10 {B P I : Type} (nc : I → I) (ds : String) (trL vaL : List B)
    (tA tE : ℕ → Option (I → I) → ℚ) (bV rV : ℕ → P) (E : ℕ) (hE : 1 ≤ E)
    (hacc : ∀ e, 0 ≤ tE e (select_norm_func nc ds) ∧ tE e (select_norm_func nc ds) ≤ 1) :
    init_train_state.best_test_acc = -1 ∧
    (init_meta_state vaL : MetaState B P).best_test_acc = -1 ∧
    (train_adv nc ds tA tE E).best_saves[0]? = some true ∧
    (∀ s : MetaState B P, meta_train_adv nc ds trL vaL tA tE bV rV E = some s →
      s.best_saves[0]? = some true) := by
  have hbm0 : best_marker (fun i => tE i (select_norm_func nc ds)) 0 = -1 := rfl
  have hgt0 : tE 0 (select_norm_func nc ds) >
      best_marker (fun i => tE i (select_norm_func nc ds)) 0 := by
    rw [hbm0]
    exact lt_of_lt_of_le (by norm_num) (hacc 0).1
  refine ⟨rfl, rfl, ?_, ?_⟩
  · rw [train_adv_closed]
    show ((List.range E).map _)[0]? = some true
    rw [range_map_getElem _ E 0 (by omega)]
    exact congrArg some (decide_eq_true hgt0)
  · intro s hs
    obtain ⟨_, _, _, _, _, hsv⟩ := meta_train_adv_bookkeeping nc ds trL vaL tA tE bV rV E s hs
    rw [hsv, range_map_getElem _ E 0 (by omega)]
    exact congrArg some (decide_eq_true hgt0)

/-- Witness for claim C10: a concrete one-epoch standard run writes the best
checkpoint at its first epoch. -/
theorem claim_C10_witness :
    (train_adv (fun x : ℚ => x) "d" (fun _ _ => 1) (fun _ _ => 1) 1).best_saves[0]? = some true :=
  (@claim_C10 ℕ ℕ ℚ (fun x => x) "d" [0] [0] (fun _ _ => 1) (fun _ _ => 1) (fun _ => 0)
    (fun _ => 0) 1 (by decide) (fun e => ⟨zero_le_one, le_refl 1⟩)).2.2.1

end A2SNN
